import Mathlib

/-!
Verification of the knuffel derive-macro core: the field-role classifier
(`Struct::new` / `Struct::all_fields` in `src/derive/src/definition.rs`) and the
scalar enum decoder compiler (`Enum::new` / `emit_enum` in
`src/derive/src/scalar.rs`), shallowly embedded in Lean.

Spans are modelled abstractly by the identifier text of the declaration that
carries them; `syn::Error` is modelled as a nonempty list of
(message, location) labels, with `Error::combine` appending a label.
-/

set_option maxHeartbeats 1000000

namespace Knuffel

/-- Field role vocabulary (`FieldMode` in definition.rs). -/
inductive FieldMode
  | Argument
  | Property
  | Arguments
  | Properties
  | Children
deriving DecidableEq, Repr

/-- A `syn::Path`: presence of a leading `::` and the list of segment idents
(generic arguments of a segment are irrelevant to this core and dropped). -/
structure SynPath where
  leading_colon : Bool
  segments : List String
deriving DecidableEq, Repr

/-- A `syn::Type`: either a path type (with or without a qualified self) or
any other shape of type. -/
inductive SynType
  | path (qself : Bool) (p : SynPath)
  | other
deriving DecidableEq, Repr

/-- `is_option` from definition.rs: the type is a path with no qualified self,
no leading colon, exactly one segment, and that segment's ident is `Option`. -/
def is_option (ty : SynType) : Bool :=
  match ty with
  | SynType.path false ⟨false, segments⟩ =>
      segments.length == 1 && segments.headD ("") == "Option"
  | SynType.path true _ => false
  | SynType.path false ⟨true, _⟩ => false
  | SynType.other => false

/-- An input field declaration as seen by `Struct::new`: identifier, declared
type, and the role mode computed from its attributes (zero or one role). -/
structure Field where
  ident : String
  ty : SynType
  mode : Option FieldMode
deriving DecidableEq, Repr

/-- One (message, source location) label of a diagnostic. -/
structure ErrLabel where
  message : String
  location : String
deriving DecidableEq, Repr

/-- A `syn::Error`: list of labels, primary first. -/
structure SynError where
  labels : List ErrLabel
deriving DecidableEq, Repr

/-- `err_pair` from definition.rs: a primary label at the offending
declaration combined with a secondary label at the prior declaration. -/
def err_pair (s1 s2 : String) (t1 t2 : String) : SynError :=
  ⟨[⟨t1, s1⟩, ⟨t2, s2⟩]⟩

/-- `syn::Error::new(span, msg)`: a single-label diagnostic. -/
def SynError.new (span msg : String) : SynError :=
  ⟨[⟨msg, span⟩]⟩

/-- `ArgKind` from definition.rs. -/
inductive ArgKind
  | Value (option : Bool)
deriving DecidableEq, Repr

/-- `Arg` from definition.rs. -/
structure Arg where
  field : String
  kind : ArgKind
deriving DecidableEq, Repr

/-- `VarArgs` from definition.rs. -/
structure VarArgs where
  field : String
deriving DecidableEq, Repr

/-- `Prop` from definition.rs (`Prop` is reserved in Lean). -/
structure Prop' where
  field : String
  option : Bool
deriving DecidableEq, Repr

/-- `VarProps` from definition.rs. -/
structure VarProps where
  field : String
deriving DecidableEq, Repr

/-- `VarChildren` from definition.rs. -/
structure VarChildren where
  field : String
deriving DecidableEq, Repr

/-- `ExtraKind` from definition.rs. -/
inductive ExtraKind
  | Default
deriving DecidableEq, Repr

/-- `ExtraField` from definition.rs. -/
structure ExtraField where
  ident : String
  kind : ExtraKind
deriving DecidableEq, Repr

/-- `Struct` from definition.rs (generics omitted: they are passed through
untouched and irrelevant to classification). -/
structure Struct where
  ident : String
  arguments : List Arg
  var_args : Option VarArgs
  properties : List Prop'
  var_props : Option VarProps
  children_only : Bool
  children : Option VarChildren
  extra_fields : List ExtraField
deriving DecidableEq, Repr

/-- The six mutable accumulators of the classification loop in `Struct::new`. -/
structure ClassifyState where
  arguments : List Arg
  var_args : Option VarArgs
  properties : List Prop'
  var_props : Option VarProps
  children : Option VarChildren
  extra_fields : List ExtraField
deriving DecidableEq, Repr

/-- One iteration of the `for fld in fields` loop of `Struct::new`. -/
def classifyField (st : ClassifyState) (fld : Field) : Except SynError ClassifyState :=
  match fld.mode with
  | some FieldMode.Argument =>
      match st.var_args with
      | some prev => Except.error (err_pair fld.ident prev.field
          ("extra `argument` after capture all `arguments`")
          ("capture all `arguments` is defined here"))
      | none => Except.ok { st with
          arguments := st.arguments ++ [⟨fld.ident, ArgKind.Value (is_option fld.ty)⟩] }
  | some FieldMode.Arguments =>
      match st.var_args with
      | some prev => Except.error (err_pair fld.ident prev.field
          ("only single `arguments` allowed")
          ("previous `arguments` is defined here"))
      | none => Except.ok { st with var_args := some ⟨fld.ident⟩ }
  | some FieldMode.Property =>
      match st.var_props with
      | some prev => Except.error (err_pair fld.ident prev.field
          ("extra `property` after capture all `properties`")
          ("capture all `properties` is defined here"))
      | none => Except.ok { st with
          properties := st.properties ++ [⟨fld.ident, is_option fld.ty⟩] }
  | some FieldMode.Properties =>
      match st.var_props with
      | some prev => Except.error (err_pair fld.ident prev.field
          ("only single `properties` is allowed")
          ("previous `properties` is defined here"))
      | none => Except.ok { st with var_props := some ⟨fld.ident⟩ }
  | some FieldMode.Children =>
      match st.children with
      | some prev => Except.error (err_pair fld.ident prev.field
          ("only single catch all `children` is allowed")
          ("previous `children` is defined here"))
      | none => Except.ok { st with children := some ⟨fld.ident⟩ }
  | none =>
      Except.ok { st with
        extra_fields := st.extra_fields ++ [⟨fld.ident, ExtraKind.Default⟩] }

/-- The initial (all-empty) accumulator state of `Struct::new`. -/
def initState : ClassifyState :=
  ⟨[], none, [], none, none, []⟩

/-- The final `Ok(Struct { .. })` construction of `Struct::new`, including the
derived `children_only` flag. -/
def mkStruct (ident : String) (st : ClassifyState) : Struct :=
  { ident := ident
    children_only := st.arguments.isEmpty && st.properties.isEmpty &&
      st.var_args.isNone && st.var_props.isNone
    arguments := st.arguments
    var_args := st.var_args
    properties := st.properties
    var_props := st.var_props
    children := st.children
    extra_fields := st.extra_fields }

/-- `Struct::new` from definition.rs: classify each field left to right
(early-returning the first conflict) and build the struct plan. -/
def Struct.new (ident : String) (fields : List Field) : Except SynError Struct :=
  (List.foldlM classifyField initState fields).map (mkStruct ident)

/-- `Struct::all_fields` from definition.rs: every classified field's ident,
in the order arguments, var_args, properties, var_props, children, extras. -/
def Struct.all_fields (s : Struct) : List String :=
  s.arguments.map Arg.field ++ s.var_args.toList.map VarArgs.field ++
    s.properties.map Prop'.field ++ s.var_props.toList.map VarProps.field ++
    s.children.toList.map VarChildren.field ++ s.extra_fields.map ExtraField.ident

/-- `Variant` from scalar.rs: variant ident plus its derived kebab-case tag. -/
structure Variant where
  ident : String
  name : String
deriving DecidableEq, Repr

instance : Inhabited Variant := ⟨⟨"", ""⟩⟩

/-- `Enum` from scalar.rs. -/
structure Enum where
  ident : String
  variants : List Variant
deriving DecidableEq, Repr

/-- The shape of a `syn::Variant`'s field list: unit, named or unnamed. -/
inductive SynFields
  | Unit
  | Named (count : Nat)
  | Unnamed (count : Nat)
deriving DecidableEq, Repr

/-- An input enum variant as seen by `Enum::new`: ident plus field shape.
The variant's span is modelled by its ident. -/
structure SynVariant where
  ident : String
  fields : SynFields
deriving DecidableEq, Repr

/-- True when a word boundary falls right before `cur`: a lower-to-upper
transition, or an upper-run followed by upper-then-lower (acronym to
mixed-case). -/
def kebabBoundary (prev cur : Char) (next? : Option Char) : Bool :=
  (prev.isLower && cur.isUpper) ||
    (prev.isUpper && cur.isUpper && next?.elim false Char.isLower)

/-- Lowercase the remaining characters, inserting a hyphen at each word
boundary; `prev` is the character just before the current position. -/
def kebabRest (prev : Char) : List Char → List Char
  | [] => []
  | c :: rest =>
      (if kebabBoundary prev c rest.head? then ['-', c.toLower] else [c.toLower]) ++
        kebabRest c rest

/-- Modelled from the spec: the kebab-case conversion done by the external
`heck` crate (`heck::KebabCase::to_kebab_case`), whose source is not part of
this repository. Per the spec, the identifier text is split into words at
lower-to-upper and acronym-to-mixed-case transitions, each word is
lowercased, and the words are joined by hyphens. -/
def to_kebab_case (s : String) : String :=
  match s.data with
  | [] => ""
  | c :: rest => String.mk (c.toLower :: kebabRest c rest)

/-- The `for var in src_variants` loop of `Enum::new`: push a tagged variant
for each unit variant, early-return an error at the first non-unit variant. -/
def enumLoop (variants : List Variant) : List SynVariant → Except SynError (List Variant)
  | [] => Except.ok variants
  | var :: rest =>
      match var.fields with
      | SynFields.Unit =>
          enumLoop (variants ++ [⟨var.ident, to_kebab_case var.ident⟩]) rest
      | SynFields.Named _ => Except.error (SynError.new var.ident
          ("only unit variants are allowed for DecodeScalar"))
      | SynFields.Unnamed _ => Except.error (SynError.new var.ident
          ("only unit variants are allowed for DecodeScalar"))

/-- `Enum::new` from scalar.rs. -/
def Enum.new (ident : String) (src_variants : List SynVariant) : Except SynError Enum :=
  (enumLoop [] src_variants).map (fun variants => ⟨ident, variants⟩)

/-- Rust `char::escape_default` for one character: named escapes for tab,
carriage return, newline, backslash and both quotes; printable ASCII verbatim;
everything else as a braced lowercase-hex unicode escape. -/
def escapeDefaultChar (c : Char) : String :=
  if c.toNat = 9 then "\\t"
  else if c.toNat = 13 then "\\r"
  else if c.toNat = 10 then "\\n"
  else if c.toNat = 92 then "\\\\"
  else if c.toNat = 39 then "\\" ++ String.singleton (Char.ofNat 39)
  else if c.toNat = 34 then "\\\""
  else if 0x20 ≤ c.toNat ∧ c.toNat ≤ 0x7e then String.singleton c
  else "\\u\x7b" ++ String.mk (Nat.toDigits 16 c.toNat) ++ "\x7d"

/-- Rust `str::escape_default`: each character escaped in sequence. -/
def escape_default (s : String) : String :=
  String.join (s.data.map escapeDefaultChar)

/-- The `value_err` message built by `emit_enum` in scalar.rs: the decode
error for a string that matches no variant tag. -/
def value_err (e : Enum) : String :=
  if e.variants.length ≤ 3 then
    "expected one of " ++ String.intercalate (", ")
      (e.variants.map (fun v => "`" ++ escape_default v.name ++ "`"))
  else
    "expected `" ++ escape_default ((e.variants[0]!).name) ++ "`, `" ++
      escape_default ((e.variants[1]!).name) ++ "`, or one of " ++
      toString (e.variants.length - 2) ++ " others"

/-- The `t_name_err` message built by `emit_enum` in scalar.rs. -/
def t_name_err (e : Enum) : String :=
  "unexpected type name for " ++ e.ident

/-- A document literal, as matched by the generated `raw_decode`. -/
inductive Literal
  | String (s : String)
  | Int (n : Int)
  | Bool (b : Bool)
deriving DecidableEq, Repr

/-- A spanned value; the span is modelled abstractly as a string. -/
structure Spanned (α : Type) where
  span : String
  value : α
deriving DecidableEq, Repr

/-- A document type-name hint attached to a literal. -/
structure TypeName where
  name : String
deriving DecidableEq, Repr

/-- The `raw_decode` body generated by `emit_enum`: match the string literal
against the derived tags in declaration order; non-strings and unmatched
strings fail at the value's span. The decoded variant is modelled by its
qualified name. -/
def raw_decode (e : Enum) (val : Spanned Literal) : Except SynError String :=
  match val.value with
  | Literal.String s =>
      match e.variants.find? (fun v => v.name == s) with
      | some v => Except.ok (e.ident ++ "::" ++ v.ident)
      | none => Except.error (SynError.new val.span (value_err e))
  | Literal.Int _ => Except.error (SynError.new val.span ("expected string value"))
  | Literal.Bool _ => Except.error (SynError.new val.span ("expected string value"))

/-- The `type_check` body generated by `emit_enum`: any present type name is
rejected with `t_name_err` at the type name's span. -/
def type_check (e : Enum) (type_name : Option (Spanned TypeName)) : Except SynError Unit :=
  match type_name with
  | some typ => Except.error (SynError.new typ.span (t_name_err e))
  | none => Except.ok ()

/-- Modelled from the spec: the runtime decode entry point lives in the main
crate, which is not part of src/; per the spec it first validates the
literal's type-name hint via the generated `type_check` and only then runs
the generated `raw_decode` on the value. -/
def decode (e : Enum) (type_name : Option (Spanned TypeName)) (val : Spanned Literal) :
    Except SynError String :=
  match type_check e type_name with
  | Except.error err => Except.error err
  | Except.ok _ => raw_decode e val

/-- Number of fields of a given mode in a field list. -/
def countMode (m : FieldMode) (fields : List Field) : Nat :=
  List.countP (fun f => f.mode == some m) fields

/-- No field of mode `plain` occurs anywhere after a field of mode `ca`. -/
def noPlainAfter (plain ca : FieldMode) : List Field → Bool
  | [] => true
  | f :: rest =>
      ((f.mode != some ca) || rest.all (fun g => g.mode != some plain)) &&
        noPlainAfter plain ca rest

/-- The multiset of field idents held by a classification state, across all
six accumulators. -/
def stateMS (st : ClassifyState) : Multiset String :=
  (↑(st.arguments.map Arg.field) : Multiset String) +
    ↑(st.var_args.toList.map VarArgs.field) +
    ↑(st.properties.map Prop'.field) +
    ↑(st.var_props.toList.map VarProps.field) +
    ↑(st.children.toList.map VarChildren.field) +
    ↑(st.extra_fields.map ExtraField.ident)

lemma foldlM_classify_cons_ok {st st₂ : ClassifyState} {fld : Field} (rest : List Field)
    (h : classifyField st fld = Except.ok st₂) :
    List.foldlM classifyField st (fld :: rest) = List.foldlM classifyField st₂ rest := by
  show classifyField st fld >>= (fun s => List.foldlM classifyField s rest) = _
  rw [h]
  rfl

lemma foldlM_classify_cons_err {st : ClassifyState} {fld : Field} {e : SynError}
    (rest : List Field) (h : classifyField st fld = Except.error e) :
    List.foldlM classifyField st (fld :: rest) = Except.error e := by
  show classifyField st fld >>= (fun s => List.foldlM classifyField s rest) = _
  rw [h]
  rfl

lemma foldlM_classify_append_ok {st st₂ : ClassifyState} (l₁ l₂ : List Field)
    (h : List.foldlM classifyField st l₁ = Except.ok st₂) :
    List.foldlM classifyField st (l₁ ++ l₂) = List.foldlM classifyField st₂ l₂ := by
  induction l₁ generalizing st with
  | nil =>
      cases h
      rfl
  | cons a l ih =>
      cases hc : classifyField st a with
      | error e =>
          rw [foldlM_classify_cons_err l hc] at h
          cases h
      | ok st₃ =>
          rw [foldlM_classify_cons_ok l hc] at h
          rw [List.cons_append, foldlM_classify_cons_ok (l ++ l₂) hc]
          exact ih h

lemma classifyField_ms (st : ClassifyState) (fld : Field) (st' : ClassifyState)
    (h : classifyField st fld = Except.ok st') :
    stateMS st' = stateMS st + {fld.ident} := by
  rcases fld with ⟨fid, fty, fmode⟩
  rcases fmode with _ | m
  · simp only [classifyField] at h
    cases h
    simp only [stateMS, List.map_append, List.map_cons, List.map_nil]
    rw [← Multiset.coe_add, ← Multiset.coe_singleton (a := fid)]
    abel
  · cases m with
    | Argument =>
        cases hv : st.var_args with
        | some prev => simp [classifyField, hv] at h
        | none =>
            simp only [classifyField, hv] at h
            cases h
            simp only [stateMS, hv, Option.toList_none, List.map_append,
              List.map_cons, List.map_nil]
            rw [← Multiset.coe_add, ← Multiset.coe_singleton (a := fid)]
            abel
    | Arguments =>
        cases hv : st.var_args with
        | some prev => simp [classifyField, hv] at h
        | none =>
            simp only [classifyField, hv] at h
            cases h
            simp only [stateMS, hv, Option.toList_some, Option.toList_none,
              List.map_cons, List.map_nil]
            rw [← Multiset.coe_singleton (a := fid)]
            abel
    | Property =>
        cases hv : st.var_props with
        | some prev => simp [classifyField, hv] at h
        | none =>
            simp only [classifyField, hv] at h
            cases h
            simp only [stateMS, hv, Option.toList_none, List.map_append,
              List.map_cons, List.map_nil]
            rw [← Multiset.coe_add, ← Multiset.coe_singleton (a := fid)]
            abel
    | Properties =>
        cases hv : st.var_props with
        | some prev => simp [classifyField, hv] at h
        | none =>
            simp only [classifyField, hv] at h
            cases h
            simp only [stateMS, hv, Option.toList_some, Option.toList_none,
              List.map_cons, List.map_nil]
            rw [← Multiset.coe_singleton (a := fid)]
            abel
    | Children =>
        cases hv : st.children with
        | some prev => simp [classifyField, hv] at h
        | none =>
            simp only [classifyField, hv] at h
            cases h
            simp only [stateMS, hv, Option.toList_some, Option.toList_none,
              List.map_cons, List.map_nil]
            rw [← Multiset.coe_singleton (a := fid)]
            abel

lemma foldlM_classify_ms (fields : List Field) (st st' : ClassifyState)
    (h : List.foldlM classifyField st fields = Except.ok st') :
    stateMS st' = stateMS st + ↑(fields.map Field.ident) := by
  induction fields generalizing st with
  | nil =>
      cases h
      simp
  | cons fld rest ih =>
      cases hc : classifyField st fld with
      | error e =>
          rw [foldlM_classify_cons_err rest hc] at h
          cases h
      | ok st₂ =>
          rw [foldlM_classify_cons_ok rest hc] at h
          rw [ih _ h, classifyField_ms _ _ _ hc, List.map_cons,
            ← Multiset.cons_coe, ← Multiset.singleton_add]
          abel

lemma foldlM_classify_ok (fields : List Field) (st : ClassifyState)
    (hva : st.var_args.isSome = true →
      ∀ f ∈ fields, f.mode ≠ some FieldMode.Argument ∧ f.mode ≠ some FieldMode.Arguments)
    (hvp : st.var_props.isSome = true →
      ∀ f ∈ fields, f.mode ≠ some FieldMode.Property ∧ f.mode ≠ some FieldMode.Properties)
    (hch : st.children.isSome = true → ∀ f ∈ fields, f.mode ≠ some FieldMode.Children)
    (h1 : countMode FieldMode.Arguments fields ≤ 1)
    (h2 : countMode FieldMode.Properties fields ≤ 1)
    (h3 : countMode FieldMode.Children fields ≤ 1)
    (h4 : noPlainAfter FieldMode.Argument FieldMode.Arguments fields = true)
    (h5 : noPlainAfter FieldMode.Property FieldMode.Properties fields = true) :
    ∃ st', List.foldlM classifyField st fields = Except.ok st' := by
  induction fields generalizing st with
  | nil => exact ⟨st, rfl⟩
  | cons fld rest ih =>
    have h1' : countMode FieldMode.Arguments rest ≤ 1 := by
      simp only [countMode, List.countP_cons] at h1 ⊢
      omega
    have h2' : countMode FieldMode.Properties rest ≤ 1 := by
      simp only [countMode, List.countP_cons] at h2 ⊢
      omega
    have h3' : countMode FieldMode.Children rest ≤ 1 := by
      simp only [countMode, List.countP_cons] at h3 ⊢
      omega
    have h4' : noPlainAfter FieldMode.Argument FieldMode.Arguments rest = true := by
      simp only [noPlainAfter, Bool.and_eq_true] at h4
      exact h4.2
    have h5' : noPlainAfter FieldMode.Property FieldMode.Properties rest = true := by
      simp only [noPlainAfter, Bool.and_eq_true] at h5
      exact h5.2
    cases hm : fld.mode with
    | none =>
        have hstep : classifyField st fld = Except.ok
            { st with extra_fields := st.extra_fields ++ [⟨fld.ident, ExtraKind.Default⟩] } := by
          simp [classifyField, hm]
        obtain ⟨st', h'⟩ := ih
          { st with extra_fields := st.extra_fields ++ [⟨fld.ident, ExtraKind.Default⟩] }
          (fun hs f hf => hva hs f (List.mem_cons_of_mem fld hf))
          (fun hs f hf => hvp hs f (List.mem_cons_of_mem fld hf))
          (fun hs f hf => hch hs f (List.mem_cons_of_mem fld hf))
          h1' h2' h3' h4' h5'
        exact ⟨st', by rw [foldlM_classify_cons_ok rest hstep]; exact h'⟩
    | some m =>
      cases m with
      | Argument =>
          have hvnone : st.var_args = none := by
            cases hv : st.var_args with
            | none => rfl
            | some prev =>
                exact absurd hm ((hva (by simp [hv]) fld (List.mem_cons_self fld rest)).1)
          have hstep : classifyField st fld = Except.ok
              { st with arguments :=
                st.arguments ++ [⟨fld.ident, ArgKind.Value (is_option fld.ty)⟩] } := by
            simp [classifyField, hm, hvnone]
          obtain ⟨st', h'⟩ := ih
            { st with arguments :=
              st.arguments ++ [⟨fld.ident, ArgKind.Value (is_option fld.ty)⟩] }
            (fun hs f hf => hva hs f (List.mem_cons_of_mem fld hf))
            (fun hs f hf => hvp hs f (List.mem_cons_of_mem fld hf))
            (fun hs f hf => hch hs f (List.mem_cons_of_mem fld hf))
            h1' h2' h3' h4' h5'
          exact ⟨st', by rw [foldlM_classify_cons_ok rest hstep]; exact h'⟩
      | Arguments =>
          have hvnone : st.var_args = none := by
            cases hv : st.var_args with
            | none => rfl
            | some prev =>
                exact absurd hm ((hva (by simp [hv]) fld (List.mem_cons_self fld rest)).2)
          have hnone2 : ∀ f ∈ rest,
              f.mode ≠ some FieldMode.Argument ∧ f.mode ≠ some FieldMode.Arguments := by
            intro f hf
            constructor
            · simp only [noPlainAfter, Bool.and_eq_true, Bool.or_eq_true] at h4
              rcases h4.1 with hfalse | hall
              · rw [hm] at hfalse
                simp at hfalse
              · have hx := List.all_eq_true.mp hall f hf
                simpa using hx
            · have hz : List.countP (fun f => f.mode == some FieldMode.Arguments) rest = 0 := by
                have hcnt : List.countP (fun f => f.mode == some FieldMode.Arguments) (fld :: rest) =
                    List.countP (fun f => f.mode == some FieldMode.Arguments) rest + 1 :=
                  List.countP_cons_of_pos _ _ (by simp [hm])
                simp only [countMode] at h1
                rw [hcnt] at h1
                omega
              intro hcontra
              have hy := List.countP_eq_zero.mp hz f hf
              simp [hcontra] at hy
          have hstep : classifyField st fld = Except.ok
              { st with var_args := some ⟨fld.ident⟩ } := by
            simp [classifyField, hm, hvnone]
          obtain ⟨st', h'⟩ := ih { st with var_args := some ⟨fld.ident⟩ }
            (fun _ => hnone2)
            (fun hs f hf => hvp hs f (List.mem_cons_of_mem fld hf))
            (fun hs f hf => hch hs f (List.mem_cons_of_mem fld hf))
            h1' h2' h3' h4' h5'
          exact ⟨st', by rw [foldlM_classify_cons_ok rest hstep]; exact h'⟩
      | Property =>
          have hvnone : st.var_props = none := by
            cases hv : st.var_props with
            | none => rfl
            | some prev =>
                exact absurd hm ((hvp (by simp [hv]) fld (List.mem_cons_self fld rest)).1)
          have hstep : classifyField st fld = Except.ok
              { st with properties :=
                st.properties ++ [⟨fld.ident, is_option fld.ty⟩] } := by
            simp [classifyField, hm, hvnone]
          obtain ⟨st', h'⟩ := ih
            { st with properties := st.properties ++ [⟨fld.ident, is_option fld.ty⟩] }
            (fun hs f hf => hva hs f (List.mem_cons_of_mem fld hf))
            (fun hs f hf => hvp hs f (List.mem_cons_of_mem fld hf))
            (fun hs f hf => hch hs f (List.mem_cons_of_mem fld hf))
            h1' h2' h3' h4' h5'
          exact ⟨st', by rw [foldlM_classify_cons_ok rest hstep]; exact h'⟩
      | Properties =>
          have hvnone : st.var_props = none := by
            cases hv : st.var_props with
            | none => rfl
            | some prev =>
                exact absurd hm ((hvp (by simp [hv]) fld (List.mem_cons_self fld rest)).2)
          have hnone2 : ∀ f ∈ rest,
              f.mode ≠ some FieldMode.Property ∧ f.mode ≠ some FieldMode.Properties := by
            intro f hf
            constructor
            · simp only [noPlainAfter, Bool.and_eq_true, Bool.or_eq_true] at h5
              rcases h5.1 with hfalse | hall
              · rw [hm] at hfalse
                simp at hfalse
              · have hx := List.all_eq_true.mp hall f hf
                simpa using hx
            · have hz : List.countP (fun f => f.mode == some FieldMode.Properties) rest = 0 := by
                have hcnt : List.countP (fun f => f.mode == some FieldMode.Properties) (fld :: rest) =
                    List.countP (fun f => f.mode == some FieldMode.Properties) rest + 1 :=
                  List.countP_cons_of_pos _ _ (by simp [hm])
                simp only [countMode] at h2
                rw [hcnt] at h2
                omega
              intro hcontra
              have hy := List.countP_eq_zero.mp hz f hf
              simp [hcontra] at hy
          have hstep : classifyField st fld = Except.ok
              { st with var_props := some ⟨fld.ident⟩ } := by
            simp [classifyField, hm, hvnone]
          obtain ⟨st', h'⟩ := ih { st with var_props := some ⟨fld.ident⟩ }
            (fun hs f hf => hva hs f (List.mem_cons_of_mem fld hf))
            (fun _ => hnone2)
            (fun hs f hf => hch hs f (List.mem_cons_of_mem fld hf))
            h1' h2' h3' h4' h5'
          exact ⟨st', by rw [foldlM_classify_cons_ok rest hstep]; exact h'⟩
      | Children =>
          have hvnone : st.children = none := by
            cases hv : st.children with
            | none => rfl
            | some prev =>
                exact absurd hm (hch (by simp [hv]) fld (List.mem_cons_self fld rest))
          have hnone2 : ∀ f ∈ rest, f.mode ≠ some FieldMode.Children := by
            intro f hf
            have hz : List.countP (fun f => f.mode == some FieldMode.Children) rest = 0 := by
              have hcnt : List.countP (fun f => f.mode == some FieldMode.Children) (fld :: rest) =
                  List.countP (fun f => f.mode == some FieldMode.Children) rest + 1 :=
                List.countP_cons_of_pos _ _ (by simp [hm])
              simp only [countMode] at h3
              rw [hcnt] at h3
              omega
            intro hcontra
            have hy := List.countP_eq_zero.mp hz f hf
            simp [hcontra] at hy
          have hstep : classifyField st fld = Except.ok
              { st with children := some ⟨fld.ident⟩ } := by
            simp [classifyField, hm, hvnone]
          obtain ⟨st', h'⟩ := ih { st with children := some ⟨fld.ident⟩ }
            (fun hs f hf => hva hs f (List.mem_cons_of_mem fld hf))
            (fun hs f hf => hvp hs f (List.mem_cons_of_mem fld hf))
            (fun _ => hnone2)
            h1' h2' h3' h4' h5'
          exact ⟨st', by rw [foldlM_classify_cons_ok rest hstep]; exact h'⟩

lemma all_fields_mkStruct_ms (ident : String) (st : ClassifyState) :
    (↑(Struct.all_fields (mkStruct ident st)) : Multiset String) = stateMS st := by
  simp only [Struct.all_fields, mkStruct, stateMS, ← Multiset.coe_add]

lemma stateMS_init : stateMS initState = 0 := rfl

/-- Claim C1 counterexample: a field list with at most one catch-all field of
each category on which `Struct::new` nevertheless fails, because a plain
`argument` field follows the `arguments` catch-all. -/
theorem struct_new_claim_counterexample :
    countMode FieldMode.Arguments
      [⟨"a", SynType.other, some FieldMode.Arguments⟩,
       ⟨"b", SynType.other, some FieldMode.Argument⟩] ≤ 1 ∧
    countMode FieldMode.Properties
      [⟨"a", SynType.other, some FieldMode.Arguments⟩,
       ⟨"b", SynType.other, some FieldMode.Argument⟩] ≤ 1 ∧
    countMode FieldMode.Children
      [⟨"a", SynType.other, some FieldMode.Arguments⟩,
       ⟨"b", SynType.other, some FieldMode.Argument⟩] ≤ 1 ∧
    Struct.new ("S")
      [⟨"a", SynType.other, some FieldMode.Arguments⟩,
       ⟨"b", SynType.other, some FieldMode.Argument⟩] =
      Except.error ⟨[⟨"extra `argument` after capture all `arguments`", "b"⟩,
        ⟨"capture all `arguments` is defined here", "a"⟩]⟩ :=
  ⟨by decide, by decide, by decide, rfl⟩

/-- Claim C1 (amended): for a field list with at most one catch-all of each
category, no plain `argument` after the `arguments` catch-all and no plain
`property` after the `properties` catch-all, classification succeeds and the
role-assigned fields plus the extra fields are exactly the input fields, each
appearing once (multiset equality of idents). -/
theorem struct_new_success_all_fields (ident : String) (fields : List Field)
    (h1 : countMode FieldMode.Arguments fields ≤ 1)
    (h2 : countMode FieldMode.Properties fields ≤ 1)
    (h3 : countMode FieldMode.Children fields ≤ 1)
    (h4 : noPlainAfter FieldMode.Argument FieldMode.Arguments fields = true)
    (h5 : noPlainAfter FieldMode.Property FieldMode.Properties fields = true) :
    ∃ s, Struct.new ident fields = Except.ok s ∧
      (↑(Struct.all_fields s) : Multiset String) = ↑(fields.map Field.ident) := by
  obtain ⟨st', hfold⟩ := foldlM_classify_ok fields initState
    (by intro hs; simp [initState] at hs)
    (by intro hs; simp [initState] at hs)
    (by intro hs; simp [initState] at hs)
    h1 h2 h3 h4 h5
  refine ⟨mkStruct ident st', ?_, ?_⟩
  · simp [Struct.new, hfold, Except.map]
  · rw [all_fields_mkStruct_ms, foldlM_classify_ms fields initState st' hfold,
      stateMS_init, zero_add]

/-- Witness for C1: a concrete two-field list satisfying the hypotheses, on
which classification succeeds with the stated field coverage. -/
theorem struct_new_success_all_fields_witness :
    countMode FieldMode.Arguments
      [⟨"a", SynType.other, some FieldMode.Arguments⟩, ⟨"b", SynType.other, none⟩] ≤ 1 ∧
    countMode FieldMode.Properties
      [⟨"a", SynType.other, some FieldMode.Arguments⟩, ⟨"b", SynType.other, none⟩] ≤ 1 ∧
    countMode FieldMode.Children
      [⟨"a", SynType.other, some FieldMode.Arguments⟩, ⟨"b", SynType.other, none⟩] ≤ 1 ∧
    noPlainAfter FieldMode.Argument FieldMode.Arguments
      [⟨"a", SynType.other, some FieldMode.Arguments⟩, ⟨"b", SynType.other, none⟩] = true ∧
    noPlainAfter FieldMode.Property FieldMode.Properties
      [⟨"a", SynType.other, some FieldMode.Arguments⟩, ⟨"b", SynType.other, none⟩] = true ∧
    ∃ s, Struct.new ("S")
        [⟨"a", SynType.other, some FieldMode.Arguments⟩, ⟨"b", SynType.other, none⟩] =
        Except.ok s ∧
      (↑(Struct.all_fields s) : Multiset String) =
        ↑(List.map Field.ident
          [⟨"a", SynType.other, some FieldMode.Arguments⟩, ⟨"b", SynType.other, none⟩]) :=
  ⟨by decide, by decide, by decide, by decide, by decide,
    struct_new_success_all_fields ("S") _ (by decide) (by decide) (by decide)
      (by decide) (by decide)⟩

/-- Claim C4 (confirmed): for every successfully classified struct,
`children_only` holds exactly when the argument list, the property list and
both the catch-all arguments and catch-all properties slots are empty,
regardless of the children slot and extra fields. -/
theorem children_only_iff (ident : String) (fields : List Field) (s : Struct)
    (h : Struct.new ident fields = Except.ok s) :
    (s.children_only = true ↔
      s.arguments = [] ∧ s.properties = [] ∧ s.var_args = none ∧ s.var_props = none) := by
  cases hfold : List.foldlM classifyField initState fields with
  | error e =>
      rw [Struct.new, hfold] at h
      cases h
  | ok st =>
      rw [Struct.new, hfold] at h
      have hs : mkStruct ident st = s := by
        cases h
        rfl
      subst hs
      simp [mkStruct, Bool.and_eq_true, List.isEmpty_iff, Option.isNone_iff_eq_none,
        and_assoc]

/-- Witness for C4 at the empty field list. -/
theorem children_only_iff_witness :
    Struct.new ("S") [] = Except.ok (mkStruct ("S") initState) ∧
    ((mkStruct ("S") initState).children_only = true ↔
      (mkStruct ("S") initState).arguments = [] ∧
      (mkStruct ("S") initState).properties = [] ∧
      (mkStruct ("S") initState).var_args = none ∧
      (mkStruct ("S") initState).var_props = none) :=
  ⟨rfl, children_only_iff ("S") [] _ rfl⟩

/-- Claim C5 (confirmed): declaring a second catch-all of a category whose
slot is already occupied makes `Struct::new` fail with a diagnostic carrying
exactly two labels: the new declaration and the prior catch-all declaration.
The state `st` is the classifier state reached after the prefix `pre`. -/
theorem struct_new_catchall_conflict (ident : String) (pre post : List Field)
    (fld : Field) (st : ClassifyState)
    (hpre : List.foldlM classifyField initState pre = Except.ok st) :
    (∀ prev, fld.mode = some FieldMode.Arguments → st.var_args = some prev →
      Struct.new ident (pre ++ fld :: post) = Except.error
        ⟨[⟨"only single `arguments` allowed", fld.ident⟩,
          ⟨"previous `arguments` is defined here", prev.field⟩]⟩) ∧
    (∀ prev, fld.mode = some FieldMode.Properties → st.var_props = some prev →
      Struct.new ident (pre ++ fld :: post) = Except.error
        ⟨[⟨"only single `properties` is allowed", fld.ident⟩,
          ⟨"previous `properties` is defined here", prev.field⟩]⟩) ∧
    (∀ prev, fld.mode = some FieldMode.Children → st.children = some prev →
      Struct.new ident (pre ++ fld :: post) = Except.error
        ⟨[⟨"only single catch all `children` is allowed", fld.ident⟩,
          ⟨"previous `children` is defined here", prev.field⟩]⟩) := by
  refine ⟨?_, ?_, ?_⟩
  · intro prev hm hv
    have hstep : classifyField st fld = Except.error
        ⟨[⟨"only single `arguments` allowed", fld.ident⟩,
          ⟨"previous `arguments` is defined here", prev.field⟩]⟩ := by
      simp [classifyField, hm, hv, err_pair]
    rw [Struct.new, foldlM_classify_append_ok pre (fld :: post) hpre,
      foldlM_classify_cons_err post hstep]
    rfl
  · intro prev hm hv
    have hstep : classifyField st fld = Except.error
        ⟨[⟨"only single `properties` is allowed", fld.ident⟩,
          ⟨"previous `properties` is defined here", prev.field⟩]⟩ := by
      simp [classifyField, hm, hv, err_pair]
    rw [Struct.new, foldlM_classify_append_ok pre (fld :: post) hpre,
      foldlM_classify_cons_err post hstep]
    rfl
  · intro prev hm hv
    have hstep : classifyField st fld = Except.error
        ⟨[⟨"only single catch all `children` is allowed", fld.ident⟩,
          ⟨"previous `children` is defined here", prev.field⟩]⟩ := by
      simp [classifyField, hm, hv, err_pair]
    rw [Struct.new, foldlM_classify_append_ok pre (fld :: post) hpre,
      foldlM_classify_cons_err post hstep]
    rfl

/-- Witness for C5: two catch-all `arguments` fields produce the dual-located
conflict diagnostic. -/
theorem struct_new_catchall_conflict_witness :
    List.foldlM classifyField initState [⟨"a", SynType.other, some FieldMode.Arguments⟩] =
      Except.ok ⟨[], some ⟨"a"⟩, [], none, none, []⟩ ∧
    Struct.new ("S")
      [⟨"a", SynType.other, some FieldMode.Arguments⟩,
       ⟨"b", SynType.other, some FieldMode.Arguments⟩] =
      Except.error ⟨[⟨"only single `arguments` allowed", "b"⟩,
        ⟨"previous `arguments` is defined here", "a"⟩]⟩ :=
  ⟨rfl, (struct_new_catchall_conflict ("S") [⟨"a", SynType.other, some FieldMode.Arguments⟩]
    [] ⟨"b", SynType.other, some FieldMode.Arguments⟩ ⟨[], some ⟨"a"⟩, [], none, none, []⟩
    rfl).1 ⟨"a"⟩ rfl rfl⟩

/-- Claim C6 (confirmed): a plain `argument` declared while the `arguments`
catch-all slot is occupied (and likewise `property` with `properties`) makes
`Struct::new` fail with a dual-located conflict naming the plain field and the
established catch-all; when the slot is free, the same plain field is accepted
(the classification step succeeds), so a plain field before its category's
catch-all never triggers this failure. -/
theorem struct_new_plain_after_catchall (ident : String) (pre post : List Field)
    (fld : Field) (st : ClassifyState)
    (hpre : List.foldlM classifyField initState pre = Except.ok st) :
    (∀ prev, fld.mode = some FieldMode.Argument → st.var_args = some prev →
      Struct.new ident (pre ++ fld :: post) = Except.error
        ⟨[⟨"extra `argument` after capture all `arguments`", fld.ident⟩,
          ⟨"capture all `arguments` is defined here", prev.field⟩]⟩) ∧
    (∀ prev, fld.mode = some FieldMode.Property → st.var_props = some prev →
      Struct.new ident (pre ++ fld :: post) = Except.error
        ⟨[⟨"extra `property` after capture all `properties`", fld.ident⟩,
          ⟨"capture all `properties` is defined here", prev.field⟩]⟩) ∧
    (fld.mode = some FieldMode.Argument → st.var_args = none →
      classifyField st fld = Except.ok { st with
        arguments := st.arguments ++ [⟨fld.ident, ArgKind.Value (is_option fld.ty)⟩] }) ∧
    (fld.mode = some FieldMode.Property → st.var_props = none →
      classifyField st fld = Except.ok { st with
        properties := st.properties ++ [⟨fld.ident, is_option fld.ty⟩] }) := by
  refine ⟨?_, ?_, ?_, ?_⟩
  · intro prev hm hv
    have hstep : classifyField st fld = Except.error
        ⟨[⟨"extra `argument` after capture all `arguments`", fld.ident⟩,
          ⟨"capture all `arguments` is defined here", prev.field⟩]⟩ := by
      simp [classifyField, hm, hv, err_pair]
    rw [Struct.new, foldlM_classify_append_ok pre (fld :: post) hpre,
      foldlM_classify_cons_err post hstep]
    rfl
  · intro prev hm hv
    have hstep : classifyField st fld = Except.error
        ⟨[⟨"extra `property` after capture all `properties`", fld.ident⟩,
          ⟨"capture all `properties` is defined here", prev.field⟩]⟩ := by
      simp [classifyField, hm, hv, err_pair]
    rw [Struct.new, foldlM_classify_append_ok pre (fld :: post) hpre,
      foldlM_classify_cons_err post hstep]
    rfl
  · intro hm hv
    simp [classifyField, hm, hv]
  · intro hm hv
    simp [classifyField, hm, hv]

/-- Witness for C6: a plain `argument` after the `arguments` catch-all
produces the dual-located conflict diagnostic. -/
theorem struct_new_plain_after_catchall_witness :
    List.foldlM classifyField initState [⟨"a", SynType.other, some FieldMode.Arguments⟩] =
      Except.ok ⟨[], some ⟨"a"⟩, [], none, none, []⟩ ∧
    Struct.new ("S")
      [⟨"a", SynType.other, some FieldMode.Arguments⟩,
       ⟨"b", SynType.other, some FieldMode.Argument⟩] =
      Except.error ⟨[⟨"extra `argument` after capture all `arguments`", "b"⟩,
        ⟨"capture all `arguments` is defined here", "a"⟩]⟩ :=
  ⟨rfl, (struct_new_plain_after_catchall ("S") [⟨"a", SynType.other, some FieldMode.Arguments⟩]
    [] ⟨"b", SynType.other, some FieldMode.Argument⟩ ⟨[], some ⟨"a"⟩, [], none, none, []⟩
    rfl).1 ⟨"a"⟩ rfl rfl⟩

lemma enumLoop_units (pre rest : List SynVariant) (acc : List Variant)
    (hpre : ∀ u ∈ pre, u.fields = SynFields.Unit) :
    enumLoop acc (pre ++ rest) =
      enumLoop (acc ++ pre.map (fun u => ⟨u.ident, to_kebab_case u.ident⟩)) rest := by
  induction pre generalizing acc with
  | nil => simp
  | cons u l ih =>
      have hu : u.fields = SynFields.Unit := hpre u (List.mem_cons_self u l)
      simp only [List.cons_append, enumLoop, hu, List.map_cons, List.append_eq]
      rw [ih _ (fun v hv => hpre v (List.mem_cons_of_mem u hv))]
      simp [List.append_assoc]

/-- Claim C3 counterexample: with two non-unit variants, `Enum::new` returns a
single-label error at the first offending variant only; the second offending
variant `B` is not reported. -/
theorem enum_invalid_variant_counterexample :
    Enum.new ("E") [⟨"A", SynFields.Named 1⟩, ⟨"B", SynFields.Named 1⟩] =
      Except.error ⟨[⟨"only unit variants are allowed for DecodeScalar", "A"⟩]⟩ ∧
    (⟨"B", SynFields.Named 1⟩ : SynVariant).fields ≠ SynFields.Unit ∧
    ((⟨[⟨"only unit variants are allowed for DecodeScalar", "A"⟩]⟩ : SynError).labels.all
      (fun l => l.location != "B")) = true :=
  ⟨rfl, by decide, by decide⟩

/-- Claim C3 (amended): when some variant is non-unit, `Enum::new` fails with
an InvalidVariantShape diagnostic located at the FIRST offending variant, with
a single label; later offending variants are not reported and no enum schema
is produced. -/
theorem enum_new_first_offender (ident : String) (pre : List SynVariant) (v : SynVariant)
    (post : List SynVariant) (hpre : ∀ u ∈ pre, u.fields = SynFields.Unit)
    (hv : v.fields ≠ SynFields.Unit) :
    Enum.new ident (pre ++ v :: post) =
      Except.error ⟨[⟨"only unit variants are allowed for DecodeScalar", v.ident⟩]⟩ := by
  rw [Enum.new, enumLoop_units pre (v :: post) [] hpre]
  cases hf : v.fields with
  | Unit => exact absurd hf hv
  | Named n => simp [enumLoop, hf, SynError.new, Except.map]
  | Unnamed n => simp [enumLoop, hf, SynError.new, Except.map]

/-- Witness for C3: a unit variant, then a named-field variant, then another
non-unit variant; the error is located at the first offender `A`. -/
theorem enum_new_first_offender_witness :
    (∀ u ∈ [(⟨"U", SynFields.Unit⟩ : SynVariant)], u.fields = SynFields.Unit) ∧
    (⟨"A", SynFields.Named 2⟩ : SynVariant).fields ≠ SynFields.Unit ∧
    Enum.new ("E")
      [⟨"U", SynFields.Unit⟩, ⟨"A", SynFields.Named 2⟩, ⟨"B", SynFields.Unnamed 1⟩] =
      Except.error ⟨[⟨"only unit variants are allowed for DecodeScalar", "A"⟩]⟩ :=
  ⟨by decide, by decide,
    enum_new_first_offender ("E") [⟨"U", SynFields.Unit⟩] ⟨"A", SynFields.Named 2⟩
      [⟨"B", SynFields.Unnamed 1⟩] (by decide) (by decide)⟩

/-- Claim C8 (confirmed): for unit variants, `Enum::new` succeeds and every
variant's derived tag is the kebab-case conversion of its identifier. -/
theorem enum_new_kebab_tags (ident : String) (src_variants : List SynVariant)
    (h : ∀ v ∈ src_variants, v.fields = SynFields.Unit) :
    Enum.new ident src_variants =
      Except.ok ⟨ident, src_variants.map (fun v => ⟨v.ident, to_kebab_case v.ident⟩)⟩ := by
  have hl := enumLoop_units src_variants [] [] h
  rw [List.append_nil] at hl
  rw [Enum.new, hl]
  simp [enumLoop, Except.map]

/-- Witness for C8: the variant identifier `FooBar` derives the tag
`foo-bar`. -/
theorem enum_new_kebab_tags_witness :
    (∀ v ∈ [(⟨"FooBar", SynFields.Unit⟩ : SynVariant)], v.fields = SynFields.Unit) ∧
    Enum.new ("E") [⟨"FooBar", SynFields.Unit⟩] =
      Except.ok ⟨"E", [⟨"FooBar", "foo-bar"⟩]⟩ :=
  ⟨by decide, (enum_new_kebab_tags ("E") [⟨"FooBar", SynFields.Unit⟩] (by decide)).trans rfl⟩

/-- Claim C2 counterexample: a five-variant enum's message is
`expected (tag0), (tag1), or one of 3 others`, not the claimed
`expected (tag0), (tag1), or 3 others`. -/
theorem value_err_large_counterexample :
    3 < (⟨"E", [⟨"A", "a"⟩, ⟨"B", "b"⟩, ⟨"C", "c"⟩, ⟨"D", "d"⟩, ⟨"F", "f"⟩]⟩ :
      Enum).variants.length ∧
    value_err ⟨"E", [⟨"A", "a"⟩, ⟨"B", "b"⟩, ⟨"C", "c"⟩, ⟨"D", "d"⟩, ⟨"F", "f"⟩]⟩ =
      "expected `a`, `b`, or one of 3 others" ∧
    value_err ⟨"E", [⟨"A", "a"⟩, ⟨"B", "b"⟩, ⟨"C", "c"⟩, ⟨"D", "d"⟩, ⟨"F", "f"⟩]⟩ ≠
      "expected `a`, `b`, or 3 others" :=
  ⟨by decide, by decide, by decide⟩

/-- Claim C2 (amended): for more than 3 variants the message is
`expected (tag0), (tag1), or one of N others` with the first two derived tags
quoted and escaped, in declaration order, and N the variant count minus 2. -/
theorem value_err_large (e : Enum) (h : 3 < e.variants.length) :
    value_err e = "expected `" ++ escape_default ((e.variants[0]!).name) ++ "`, `" ++
      escape_default ((e.variants[1]!).name) ++ "`, or one of " ++
      toString (e.variants.length - 2) ++ " others" := by
  rw [value_err, if_neg (by omega)]

/-- Witness for C2 at a concrete five-variant enum. -/
theorem value_err_large_witness :
    3 < (⟨"E", [⟨"A", "a"⟩, ⟨"B", "b"⟩, ⟨"C", "c"⟩, ⟨"D", "d"⟩, ⟨"F", "f"⟩]⟩ :
      Enum).variants.length ∧
    value_err ⟨"E", [⟨"A", "a"⟩, ⟨"B", "b"⟩, ⟨"C", "c"⟩, ⟨"D", "d"⟩, ⟨"F", "f"⟩]⟩ =
      "expected `a`, `b`, or one of 3 others" :=
  ⟨by decide,
    (value_err_large ⟨"E", [⟨"A", "a"⟩, ⟨"B", "b"⟩, ⟨"C", "c"⟩, ⟨"D", "d"⟩, ⟨"F", "f"⟩]⟩
      (by decide)).trans (by decide)⟩

/-- Claim C7 (confirmed): for at most 3 variants the message is
`expected one of ` followed by every derived tag, each backtick-quoted and
escaped, joined by a comma and space in declaration order. -/
theorem value_err_small (e : Enum) (h : e.variants.length ≤ 3) :
    value_err e = "expected one of " ++ String.intercalate (", ")
      (e.variants.map (fun v => "`" ++ escape_default v.name ++ "`")) := by
  rw [value_err, if_pos h]

/-- Witness for C7: a two-variant enum with tags `a`, `b`. -/
theorem value_err_small_witness :
    (⟨"E", [⟨"A", "a"⟩, ⟨"B", "b"⟩]⟩ : Enum).variants.length ≤ 3 ∧
    value_err ⟨"E", [⟨"A", "a"⟩, ⟨"B", "b"⟩]⟩ = "expected one of `a`, `b`" :=
  ⟨by decide,
    (value_err_small ⟨"E", [⟨"A", "a"⟩, ⟨"B", "b"⟩]⟩ (by decide)).trans (by decide)⟩

/-- Claim C9 (confirmed): a literal carrying a type-name hint is rejected
unconditionally — whatever the literal's content, even a string equal to a
derived tag — with the error located at the type name's span. -/
theorem decode_rejects_type_name (e : Enum) (typ : Spanned TypeName)
    (val : Spanned Literal) :
    decode e (some typ) val = Except.error ⟨[⟨t_name_err e, typ.span⟩]⟩ := rfl

/-- Claim C10 (confirmed): `is_option` holds exactly for the bare
single-segment path `Option` with no leading colon and no qualified self; a
qualified path such as `std::option::Option` is not optional and the field is
classified with a non-optional ArgumentSpec. -/
theorem is_option_bare_single_segment :
    (∀ ty : SynType, is_option ty = true ↔ ty = SynType.path false ⟨false, ["Option"]⟩) ∧
    (∀ q lc : Bool,
      is_option (SynType.path q ⟨lc, ["std", "option", "Option"]⟩) = false ∧
      ∃ s, Struct.new ("S")
          [⟨"f", SynType.path q ⟨lc, ["std", "option", "Option"]⟩, some FieldMode.Argument⟩] =
          Except.ok s ∧ s.arguments = [⟨"f", ArgKind.Value false⟩]) := by
  constructor
  · intro ty
    cases ty with
    | other => simp [is_option]
    | path q p =>
        cases p with
        | mk lc segs =>
            cases q <;> cases lc
            · cases segs with
              | nil => simp [is_option]
              | cons a t =>
                  cases t with
                  | nil => simp [is_option]
                  | cons b t2 => simp [is_option]
            · simp [is_option]
            · simp [is_option]
            · simp [is_option]
  · intro q lc
    refine ⟨by cases q <;> cases lc <;> rfl, ?_⟩
    refine ⟨mkStruct ("S") ⟨[⟨"f", ArgKind.Value false⟩], none, [], none, none, []⟩, ?_, rfl⟩
    cases q <;> cases lc <;> rfl

end Knuffel
